import Mathlib

/-!
Shallow embedding of the RBAC authorization core of `mongoose-api-user`
(TypeScript / Express / Mongoose).  Sources embedded:

* `src/middlewares/auth.ts`   — `verifyToken`, `getPermissions`, `loginUser`
* `src/middlewares/roles.ts`  — `checkRoles` (file `src/unnamed/part_005`)
* `src/models/Users.ts`       — pre-save password hashing hook, `toJSON`
* `src/repositories/userRepositories.ts` — `findById`, `update`
* `src/types/PermissionsTypes.ts` — `Method`, `Scope`, `permissions` table
  (the file is reproduced verbatim in `src/doc/part7.md`, lines 366–399)

Mongoose / jsonwebtoken / bcrypt are external collaborators; their
documented behaviour is modelled explicitly where the code depends on it
(query updates run no document middleware; `jwt.verify` rejects empty
tokens and tokens at or past their `exp`; `populate` resolves role ids).
-/

/-! ## HTTP methods and the permission requirement table
From `src/types/PermissionsTypes.ts` (quoted in doc/part7.md):
`enum Method { GET, POST, PUT, DELETE }`, `enum Scope { Read = "read", ... }`,
and the seeded `permissions` array. -/

/-- The `Method` enum of `PermissionsTypes.ts`. -/
inductive Method where
  | GET
  | POST
  | PUT
  | DELETE
deriving Repr, DecidableEq

/-- String value of each `Method` enum member (the enum values are the
method names themselves). -/
def methodToString : Method → String
  | .GET => "GET"
  | .POST => "POST"
  | .PUT => "PUT"
  | .DELETE => "DELETE"

/-- The lookup `Method[method as keyof typeof Method]` performed by
`getPermissions`: a request method string maps to the enum member of the
same name, and to `undefined` (here `none`) for any other string. -/
def methodOfString (s : String) : Option Method :=
  if s = "GET" then some .GET
  else if s = "POST" then some .POST
  else if s = "PUT" then some .PUT
  else if s = "DELETE" then some .DELETE
  else none

/-- The scope string paired with each method in the `permissions` table
(`Scope.Read = "read"`, etc.). -/
def scopeOf : Method → String
  | .GET => "read"
  | .POST => "write"
  | .PUT => "update"
  | .DELETE => "delete"

/-- One entry of the `permissions` array of `PermissionsTypes.ts`:
a method, its scope, and the (mutable, process-wide) list of permission
strings registered for that method. -/
structure PermissionEntry where
  method : Method
  scope : String
  permissions : List String
deriving Repr, DecidableEq

/-- The `permissions` constant of `PermissionsTypes.ts`: each of the four
method entries is seeded with `["admin_granted"]`. -/
def initPermissions : List PermissionEntry :=
  [ ⟨.GET, "read", ["admin_granted"]⟩
  , ⟨.POST, "write", ["admin_granted"]⟩
  , ⟨.PUT, "update", ["admin_granted"]⟩
  , ⟨.DELETE, "delete", ["admin_granted"]⟩ ]

/-! ## Data model: roles and users
From `src/types/RoleTypes.ts`, `src/types/UserTypes.ts` and the Mongoose
schemas.  `UserSchema` defaults `permissions` to `[]` and `roles` to `[]`,
so both fields are always arrays on a loaded document. -/

/-- A `Role` document: unique name and a list of granted permission
strings (`src/types/RoleTypes.ts`, `src/models/Roles.ts`). -/
structure Role where
  _id : String
  name : String
  permissions : List String
deriving Repr, DecidableEq

/-- A `User` document as stored: the `roles` field holds role ObjectIds
(weak references into the role collection), per `UserSchema`. -/
structure StoredUser where
  _id : String
  name : String
  username : String
  email : String
  password : String
  permissions : List String
  roles : List String
deriving Repr, DecidableEq

/-- A `User` as returned by the repository reads used by the middleware:
`roles` has been populated into full `Role` documents
(`UserModel.findById(id).populate("roles")`, doc/part7.md lines 575–601). -/
structure PopUser where
  _id : String
  name : String
  username : String
  email : String
  password : String
  permissions : List String
  roles : List Role
deriving Repr, DecidableEq

/-! ## getPermissions (src/middlewares/auth.ts, lines 34–77) -/

/-- `path.replace(/^\/([^\/]+).*/, "$1")`: when the path starts with `/`
followed by at least one non-`/` character, the result is the first path
segment; otherwise the regex does not match and the path is returned
unchanged.  (Request paths contain no line terminators, so the trailing
`.*` consumes the whole remainder.) -/
def firstPathSegment (path : String) : String :=
  match path.data with
  | '/' :: rest =>
      let seg := rest.takeWhile (fun c => c ≠ '/')
      if seg.isEmpty then path else ⟨seg⟩
  | _ => path

/-- JS `[...new Set(l)]`: deduplicate keeping the first occurrence of each
element.  `seen` accumulates the elements already emitted. -/
def dedupFirst (seen : List String) : List String → List String
  | [] => []
  | x :: xs =>
      if seen.contains x then dedupFirst seen xs
      else x :: dedupFirst (x :: seen) xs

/-- `[...new Set(roles?.flatMap((x) => x.permissions))]` from
`getPermissions`. -/
def mergedRolesPermissions (roles : List Role) : List String :=
  dedupFirst [] (roles.map (·.permissions)).flatten

/-- The effective permission set computed by `getPermissions`:
`if (currentUser.permissions?.length !== 0) userPermissions =
currentUser.permissions!; else userPermissions = mergedRolesPermissions`.
The schema defaults guarantee `permissions` is an array, so the optional
chain reduces to a length test. -/
def userPermissions (u : PopUser) : List String :=
  if u.permissions.length ≠ 0 then u.permissions
  else mergedRolesPermissions u.roles

/-- In-place mutation of the entry object returned by
`permissions.find(...)`: the first entry for the method is replaced by the
updated entry, the rest of the table is untouched. -/
def updateFirst : List PermissionEntry → Method → PermissionEntry → List PermissionEntry
  | [], _, _ => []
  | pm :: rest, m, e1 =>
      if pm.method == m then e1 :: rest else pm :: updateFirst rest m e1

/-- Outcome of an Express middleware over an attached value: either
`next()` was invoked (with `req.currentUser` set for `verifyToken`), or a
terminal response with the given status and body was produced. -/
inductive MwResult (α : Type) where
  | next (attached : α)
  | respond (status : Nat) (body : String)
deriving Repr, DecidableEq

/-- The idempotent insert of `getPermissions`:
`if (!findMethod?.permissions.includes(req)) findMethod?.permissions.push(req)`. -/
def pushRequired (e : PermissionEntry) (required : String) : PermissionEntry :=
  if e.permissions.contains required then e
  else { e with permissions := e.permissions ++ [required] }

/-- The decision of `getPermissions`:
`permissionGranted = findMethod?.permissions.find((pm) =>
userPermissions.includes(pm)); if (!permissionGranted) return
res.status(403)...; next();`.  `Array.prototype.find` yields the found
element, and `!permissionGranted` is true both for `undefined` and for
the empty string. -/
def decideGranted (entryPerms uPerms : List String) : MwResult Unit :=
  match entryPerms.find? (fun pm => uPerms.contains pm) with
  | none => .respond 403 "Access denied. No permission."
  | some s =>
      if s = "" then .respond 403 "Access denied. No permission."
      else .next ()

/-- `getPermissions` from `src/middlewares/auth.ts`.  Takes the current
permission table state, the attached `currentUser`, the request method
string and path; returns the (possibly mutated) table and the decision.
The required string is pushed into the found entry before the decision is
taken against the entry's full permission list. -/
def getPermissions (t : List PermissionEntry) (u : PopUser)
    (method : String) (path : String) : List PermissionEntry × MwResult Unit :=
  let currentModule := firstPathSegment path
  match methodOfString method with
  | none =>
      -- findMethod is undefined: the optional-chained push is skipped and
      -- permissionGranted is undefined, so the request is denied.
      (t, .respond 403 "Access denied. No permission.")
  | some m =>
      match t.find? (fun pm => pm.method == m) with
      | none => (t, .respond 403 "Access denied. No permission.")
      | some e =>
          let e1 := pushRequired e (currentModule ++ "_" ++ e.scope)
          (updateFirst t m e1, decideGranted e1.permissions (userPermissions u))

/-- Reachable states of the process-wide `permissions` table: it starts as
the seeded `initPermissions` and is only ever changed by `getPermissions`
handling a request. -/
inductive ReachableTable : List PermissionEntry → Prop where
  | init : ReachableTable initPermissions
  | step {t : List PermissionEntry} (u : PopUser) (method path : String) :
      ReachableTable t → ReachableTable (getPermissions t u method path).1

/-- Permission lists that can occur in a reachable table entry: they
contain the seed `"admin_granted"` and never the empty string. -/
def goodPerms (ps : List String) : Prop :=
  "admin_granted" ∈ ps ∧ "" ∉ ps

/-- Invariant of the process-wide `permissions` table: it keeps its
seeded shape — exactly one entry per method, with that method's scope —
and every entry's permission list is `goodPerms`. -/
def TableInv (t : List PermissionEntry) : Prop :=
  ∃ pG pP pU pD,
    t = [ ⟨.GET, "read", pG⟩, ⟨.POST, "write", pP⟩
        , ⟨.PUT, "update", pU⟩, ⟨.DELETE, "delete", pD⟩ ]
    ∧ goodPerms pG ∧ goodPerms pP ∧ goodPerms pU ∧ goodPerms pD

/-- The table entry a method selects in a table of the invariant shape. -/
def tableEntry (m : Method) (pG pP pU pD : List String) : PermissionEntry :=
  match m with
  | .GET => ⟨.GET, "read", pG⟩
  | .POST => ⟨.POST, "write", pP⟩
  | .PUT => ⟨.PUT, "update", pU⟩
  | .DELETE => ⟨.DELETE, "delete", pD⟩

/-! ## Token service (jsonwebtoken) and the Identity Resolver
From `src/middlewares/auth.ts` (`verifyToken`, lines 12–32; `loginUser`,
lines 119–145).  The JWS wire encoding is abstracted: a token string is
modelled by what `jwt.verify` can make of it — the empty string, a
malformed string, or a well-formed token signed with some secret and
carrying a payload.  `jwt.verify` rejects a missing/empty token with
"jwt must be provided", a wrong signature with "invalid signature", and a
token whose `exp` is at or before the clock with "jwt expired". -/

/-- Decoded token claims: `loginUser` signs `{ id, email, username }` and
`expiresIn: "1h"` adds `iat` and `exp = iat + 3600` (seconds). -/
structure JwtPayload where
  id : String
  username : String
  email : String
  iat : Nat
  exp : Nat
deriving Repr, DecidableEq

/-- A token string, classified by its verification-relevant content. -/
inductive Jwt where
  | empty
  | malformed (s : String)
  | signed (payload : JwtPayload) (secret : String)
deriving Repr, DecidableEq

/-- Result of `jwt.verify`: the decoded payload, or a thrown error's
`message`. -/
inductive VerifyResult where
  | ok (payload : JwtPayload)
  | err (msg : String)
deriving Repr, DecidableEq

/-- `jwt.verify(token, secret)` at clock time `now` (seconds).  The
middleware's extraction leaves `token` undefined when the Authorization
header is absent; `jwt.verify` treats undefined and `""` alike. -/
def jwtVerify (tok : Option Jwt) (secret : String) (now : Nat) : VerifyResult :=
  match tok with
  | none => .err "jwt must be provided"
  | some .empty => .err "jwt must be provided"
  | some (.malformed _) => .err "jwt malformed"
  | some (.signed p s) =>
      if s ≠ secret then .err "invalid signature"
      else if p.exp ≤ now then .err "jwt expired"
      else .ok p

/-- `jwt.sign({ id: user._id, email: user.email, username: user.username },
JWT_SECRET, { expiresIn: "1h" })` from `loginUser`, issued at `iat`. -/
def issueToken (u : PopUser) (secret : String) (iat : Nat) : Jwt :=
  .signed { id := u._id, username := u.username, email := u.email
          , iat := iat, exp := iat + 3600 } secret

/-! ## User repository reads (src/repositories/userRepositories.ts)
Reads used by the authentication middleware populate the `roles`
references into full Role documents (`.populate("roles")`, doc/part7.md
lines 575–601). -/

/-- `RoleModel` lookup by ObjectId; `populate` drops unresolvable
references from the populated array. -/
def populateRoles (roleDb : List Role) (rids : List String) : List Role :=
  rids.filterMap (fun rid => roleDb.find? (fun r => r._id == rid))

/-- Join a stored user with its role documents. -/
def populateUser (roleDb : List Role) (su : StoredUser) : PopUser :=
  { _id := su._id, name := su.name, username := su.username
  , email := su.email, password := su.password
  , permissions := su.permissions
  , roles := populateRoles roleDb su.roles }

/-- `UserModel.findById(id)`: first stored user with the given `_id`. -/
def findById (userDb : List StoredUser) (id : String) : Option StoredUser :=
  userDb.find? (fun u => u._id == id)

/-- `UserRepository.findById`: `UserModel.findById(id).populate("roles")`. -/
def findUserById (roleDb : List Role) (userDb : List StoredUser)
    (id : String) : Option PopUser :=
  (findById userDb id).map (populateUser roleDb)

/-- `verifyToken` from `src/middlewares/auth.ts`: extract and verify the
bearer token, load the subject with populated roles, attach it and call
`next()`; a verification error is caught and answered with
`res.status(401).send(error.message)`; a missing subject is answered with
`res.status(400)` (empty body). -/
def verifyToken (roleDb : List Role) (userDb : List StoredUser)
    (secret : String) (now : Nat) (tok : Option Jwt) : MwResult PopUser :=
  match jwtVerify tok secret now with
  | .err msg => .respond 401 msg
  | .ok p =>
      match findUserById roleDb userDb p.id with
      | none => .respond 400 ""
      | some u => .next u

/-! ## Password persistence (src/models/Users.ts, userRepositories.ts) -/

/-- `Partial<User>` as handed to `findByIdAndUpdate`: each field is
either absent or a replacement value. -/
structure UserUpdate where
  name : Option String := none
  username : Option String := none
  email : Option String := none
  password : Option String := none
  permissions : Option (List String) := none
  roles : Option (List String) := none
deriving Repr, DecidableEq

/-- Field-wise effect of a MongoDB update document on a stored user. -/
def applyUpdate (d : UserUpdate) (u : StoredUser) : StoredUser :=
  { _id := u._id
  , name := d.name.getD u.name
  , username := d.username.getD u.username
  , email := d.email.getD u.email
  , password := d.password.getD u.password
  , permissions := d.permissions.getD u.permissions
  , roles := d.roles.getD u.roles }

/-- The `UserSchema.pre("save")` hook (src/models/Users.ts, lines 20–27):
when the password path is modified or the document is new, the password
field is replaced by `bcrypt.hash(password, salt)` before the write.
`hash` abstracts the salted bcrypt digest function. -/
def preSaveHook (hash : String → String) (pwModified isNew : Bool)
    (u : StoredUser) : StoredUser :=
  if pwModified || isNew then { u with password := hash u.password } else u

/-- `UserRepository.create`: `new UserModel(data).save()`.  A document
`save()` runs the pre-save middleware with `isNew = true` (and every path
modified), so the stored password is the digest. -/
def createUserRecord (hash : String → String) (data : StoredUser) : StoredUser :=
  preSaveHook hash true true data

/-- `UserRepository.update`: `UserModel.findByIdAndUpdate(id, data,
{ new: true })`.  This is a query-level update: Mongoose runs no document
`save` middleware here, so the pre-save hash hook of `Users.ts` does not
run and the update document is applied to the stored record as-is. -/
def updateUserRecord (d : UserUpdate) (u : StoredUser) : StoredUser :=
  applyUpdate d u

/-! ## Serialization (src/models/Users.ts, toJSON) -/

/-- A JSON field value, as far as the user schema needs. -/
inductive JsonVal where
  | str (s : String)
  | strs (xs : List String)
deriving Repr, DecidableEq

/-- `this.toObject()`: every schema field of the document as key/value
pairs (role references serialized by id). -/
def toObject (u : PopUser) : List (String × JsonVal) :=
  [ ("_id", .str u._id)
  , ("name", .str u.name)
  , ("username", .str u.username)
  , ("email", .str u.email)
  , ("password", .str u.password)
  , ("permissions", .strs u.permissions)
  , ("roles", .strs (u.roles.map (·._id))) ]

/-- `UserSchema.methods.toJSON` (src/models/Users.ts, lines 36–40):
`const obj = this.toObject(); delete obj.password; return obj;`.
This is the representation used whenever the document is externally
serialized (`res.json`, `JSON.stringify`). -/
def toJSON (u : PopUser) : List (String × JsonVal) :=
  (toObject u).filter (fun kv => kv.1 ≠ "password")

/-! ## Role Assignment Resolver (src/middlewares/roles.ts) -/

/-- The `roles` field of a creation request body: absent (or any falsy
value, including when the body itself is missing), a truthy non-array
value, or an array of role names. -/
inductive RolesField where
  | missing
  | nonArray
  | list (names : List String)
deriving Repr, DecidableEq

/-- Lines 15–16 of `checkRoles`:
`const roles = req.body && req.body?.roles ? req.body.roles : [];`
`const role = Array.isArray(roles) && roles.length !== 0 ? roles : ["user"];`
A falsy or absent field yields `[]`, a non-array is rejected by
`Array.isArray`, and an empty array fails the length test — each case
falls back to the default `["user"]`. -/
def roleNamesToFind (f : RolesField) : List String :=
  match f with
  | .missing => if ([] : List String).length ≠ 0 then [] else ["user"]
  | .nonArray => ["user"]
  | .list names => if names.length ≠ 0 then names else ["user"]

/-- `roleService.findRoles({ name: { $in: role } })`: all stored roles
whose name is a member of the requested list. -/
def findRolesByName (roleDb : List Role) (names : List String) : List Role :=
  roleDb.filter (fun r => names.contains r.name)

/-- `checkRoles` from `src/middlewares/roles.ts`: look up the requested
(or defaulted) role names; answer 404 when nothing matches, otherwise
replace `req.body.roles` with the matched role ids and call `next()`. -/
def checkRoles (roleDb : List Role) (f : RolesField) : MwResult (List String) :=
  let role := roleNamesToFind f
  let found := findRolesByName roleDb role
  if found.length = 0 then .respond 404 "No roles found"
  else .next (found.map (·._id))

/-! ## Basic lemmas about the embedded operations -/

theorem mem_dedupFirst {x : String} : ∀ (seen l : List String),
    x ∈ dedupFirst seen l ↔ x ∈ l ∧ x ∉ seen := by
  intro seen l
  induction l generalizing seen with
  | nil => simp [dedupFirst]
  | cons y ys ih =>
      by_cases hy : seen.contains y = true
      · have hy' : y ∈ seen := List.elem_iff.mp hy
        rw [dedupFirst, if_pos hy, ih]
        constructor
        · exact fun ⟨h1, h2⟩ => ⟨List.mem_cons_of_mem _ h1, h2⟩
        · rintro ⟨h1, h2⟩
          rcases List.mem_cons.mp h1 with rfl | h1
          · exact absurd hy' h2
          · exact ⟨h1, h2⟩
      · have hy' : y ∉ seen := fun hc => hy (List.elem_iff.mpr hc)
        rw [dedupFirst, if_neg hy]
        constructor
        · intro hx
          rcases List.mem_cons.mp hx with rfl | hx
          · exact ⟨List.mem_cons_self _ _, hy'⟩
          · obtain ⟨h1, h2⟩ := (ih _).mp hx
            exact ⟨List.mem_cons_of_mem _ h1,
              fun hc => h2 (List.mem_cons_of_mem _ hc)⟩
        · rintro ⟨h1, h2⟩
          rcases List.mem_cons.mp h1 with rfl | h1
          · exact List.mem_cons_self _ _
          · by_cases hxy : x = y
            · exact hxy ▸ List.mem_cons_self _ _
            · exact List.mem_cons_of_mem _ ((ih _).mpr
                ⟨h1, fun hc => (List.mem_cons.mp hc).elim hxy h2⟩)

theorem mem_mergedRolesPermissions (roles : List Role) (s : String) :
    s ∈ mergedRolesPermissions roles ↔ ∃ r ∈ roles, s ∈ r.permissions := by
  simp [mergedRolesPermissions, mem_dedupFirst, List.mem_flatten]

theorem decideGranted_cases (ps uP : List String) :
    decideGranted ps uP = .next () ∨
    decideGranted ps uP = .respond 403 "Access denied. No permission." := by
  unfold decideGranted
  rcases ps.find? (fun pm => uP.contains pm) with _ | s
  · exact Or.inr rfl
  · by_cases hs : s = ""
    · exact Or.inr (by simp [hs])
    · exact Or.inl (by simp [hs])

theorem decideGranted_next_iff (ps uP : List String) (h : "" ∉ ps) :
    decideGranted ps uP = .next () ↔ ∃ pm ∈ ps, pm ∈ uP := by
  unfold decideGranted
  rcases hf : ps.find? (fun pm => uP.contains pm) with _ | s
  · constructor
    · intro hc; cases hc
    · rintro ⟨pm, hpm, hmem⟩
      have : (ps.find? (fun pm => uP.contains pm)).isSome :=
        List.find?_isSome.mpr ⟨pm, hpm, List.elem_iff.mpr hmem⟩
      rw [hf] at this; cases this
  · have hsmem : s ∈ ps := List.mem_of_find?_eq_some hf
    have hpred : uP.contains s = true := List.find?_some hf
    have hsne : s ≠ "" := fun hc => h (hc ▸ hsmem)
    constructor
    · intro _
      exact ⟨s, hsmem, List.elem_iff.mp hpred⟩
    · intro _
      show (if s = "" then MwResult.respond 403 "Access denied. No permission."
            else MwResult.next ()) = MwResult.next ()
      rw [if_neg hsne]

theorem mem_pushRequired_iff (e : PermissionEntry) (r x : String) :
    x ∈ (pushRequired e r).permissions ↔ x = r ∨ x ∈ e.permissions := by
  unfold pushRequired
  by_cases hc : e.permissions.contains r = true
  · have hr : r ∈ e.permissions := List.elem_iff.mp hc
    simp only [if_pos hc]
    exact ⟨Or.inr, fun h => by rcases h with rfl | h <;> [exact hr; exact h]⟩
  · simp only [if_neg hc, List.mem_append, List.mem_singleton]
    tauto

theorem requiredString_ne_empty (a b : String) : a ++ "_" ++ b ≠ "" := by
  intro h
  have hlen : (a ++ "_" ++ b).length = ("" : String).length := congrArg String.length h
  rw [String.length_append, String.length_append] at hlen
  have h1 : ("_" : String).length = 1 := rfl
  have h0 : ("" : String).length = 0 := rfl
  omega

/-! ## The permission-table invariant -/

theorem tableInv_init : TableInv initPermissions :=
  ⟨_, _, _, _, rfl, ⟨by decide, by decide⟩, ⟨by decide, by decide⟩,
    ⟨by decide, by decide⟩, ⟨by decide, by decide⟩⟩

theorem goodPerms_pushRequired (e : PermissionEntry) (a b : String)
    (h : goodPerms e.permissions) :
    goodPerms (pushRequired e (a ++ "_" ++ b)).permissions := by
  obtain ⟨h1, h2⟩ := h
  constructor
  · exact (mem_pushRequired_iff e _ _).mpr (Or.inr h1)
  · intro hc
    rcases (mem_pushRequired_iff e _ _).mp hc with hce | hce
    · exact requiredString_ne_empty a b hce.symm
    · exact h2 hce

theorem methodOfString_toString (m : Method) :
    methodOfString (methodToString m) = some m := by
  cases m <;> rfl

theorem pushRequired_mk (m : Method) (sc : String) (ps : List String) (r : String) :
    pushRequired ⟨m, sc, ps⟩ r = ⟨m, sc, if ps.contains r then ps else ps ++ [r]⟩ := by
  show (if ps.contains r then (⟨m, sc, ps⟩ : PermissionEntry) else ⟨m, sc, ps ++ [r]⟩) =
       ⟨m, sc, if ps.contains r then ps else ps ++ [r]⟩
  by_cases h : ps.contains r = true
  · rw [if_pos h, if_pos h]
  · rw [if_neg h, if_neg h]

theorem mem_pushedList_iff (ps : List String) (r x : String) :
    x ∈ (if ps.contains r then ps else ps ++ [r]) ↔ x = r ∨ x ∈ ps := by
  by_cases h : ps.contains r = true
  · rw [if_pos h]
    have hr : r ∈ ps := List.elem_iff.mp h
    exact ⟨Or.inr, fun hx => hx.elim (fun hxr => hxr ▸ hr) id⟩
  · rw [if_neg h, List.mem_append, List.mem_singleton]
    exact or_comm

theorem goodPerms_pushedList (ps : List String) (a b : String) (h : goodPerms ps) :
    goodPerms (if ps.contains (a ++ "_" ++ b) then ps else ps ++ [a ++ "_" ++ b]) := by
  constructor
  · exact (mem_pushedList_iff ps _ _).mpr (Or.inr h.1)
  · intro hc
    rcases (mem_pushedList_iff ps _ _).mp hc with hce | hce
    · exact requiredString_ne_empty a b hce.symm
    · exact h.2 hce

theorem find?_tableShape (pG pP pU pD : List String) (m : Method) :
    (([ ⟨.GET, "read", pG⟩, ⟨.POST, "write", pP⟩
      , ⟨.PUT, "update", pU⟩, ⟨.DELETE, "delete", pD⟩ ] :
      List PermissionEntry).find? (fun pm => pm.method == m)) =
      some (match m with
            | .GET => ⟨.GET, "read", pG⟩
            | .POST => ⟨.POST, "write", pP⟩
            | .PUT => ⟨.PUT, "update", pU⟩
            | .DELETE => ⟨.DELETE, "delete", pD⟩) := by
  cases m <;> rfl

theorem updateFirst_tableShape (pG pP pU pD : List String)
    (e1 : PermissionEntry) (m : Method) :
    updateFirst [ ⟨.GET, "read", pG⟩, ⟨.POST, "write", pP⟩
                , ⟨.PUT, "update", pU⟩, ⟨.DELETE, "delete", pD⟩ ] m e1 =
      match m with
      | .GET => [e1, ⟨.POST, "write", pP⟩, ⟨.PUT, "update", pU⟩, ⟨.DELETE, "delete", pD⟩]
      | .POST => [⟨.GET, "read", pG⟩, e1, ⟨.PUT, "update", pU⟩, ⟨.DELETE, "delete", pD⟩]
      | .PUT => [⟨.GET, "read", pG⟩, ⟨.POST, "write", pP⟩, e1, ⟨.DELETE, "delete", pD⟩]
      | .DELETE => [⟨.GET, "read", pG⟩, ⟨.POST, "write", pP⟩, ⟨.PUT, "update", pU⟩, e1] := by
  cases m <;> rfl

theorem getPermissions_table_eq (pG pP pU pD : List String) (u : PopUser)
    (m : Method) (path : String) :
    getPermissions [ ⟨.GET, "read", pG⟩, ⟨.POST, "write", pP⟩
                   , ⟨.PUT, "update", pU⟩, ⟨.DELETE, "delete", pD⟩ ]
        u (methodToString m) path =
      (updateFirst [ ⟨.GET, "read", pG⟩, ⟨.POST, "write", pP⟩
                   , ⟨.PUT, "update", pU⟩, ⟨.DELETE, "delete", pD⟩ ] m
         (pushRequired (tableEntry m pG pP pU pD)
           (firstPathSegment path ++ "_" ++ scopeOf m)),
       decideGranted
         (pushRequired (tableEntry m pG pP pU pD)
           (firstPathSegment path ++ "_" ++ scopeOf m)).permissions
         (userPermissions u)) := by
  cases m <;> rfl

theorem tableInv_step (t : List PermissionEntry) (u : PopUser)
    (method path : String) (hInv : TableInv t) :
    TableInv (getPermissions t u method path).1 := by
  obtain ⟨pG, pP, pU, pD, rfl, hG, hP, hU, hD⟩ := hInv
  rcases hm : methodOfString method with _ | m
  · refine ⟨pG, pP, pU, pD, ?_, hG, hP, hU, hD⟩
    show (getPermissions _ u method path).1 = _
    unfold getPermissions
    rw [hm]
  · have hcan : getPermissions
        [ (⟨.GET, "read", pG⟩ : PermissionEntry), ⟨.POST, "write", pP⟩
        , ⟨.PUT, "update", pU⟩, ⟨.DELETE, "delete", pD⟩ ] u method path =
      getPermissions
        [ ⟨.GET, "read", pG⟩, ⟨.POST, "write", pP⟩
        , ⟨.PUT, "update", pU⟩, ⟨.DELETE, "delete", pD⟩ ] u (methodToString m) path := by
      unfold getPermissions
      rw [hm, methodOfString_toString]
    rw [hcan, getPermissions_table_eq]
    cases m
    · rw [show tableEntry .GET pG pP pU pD = ⟨.GET, "read", pG⟩ from rfl, pushRequired_mk]
      exact ⟨_, pP, pU, pD, rfl, goodPerms_pushedList pG _ _ hG, hP, hU, hD⟩
    · rw [show tableEntry .POST pG pP pU pD = ⟨.POST, "write", pP⟩ from rfl, pushRequired_mk]
      exact ⟨pG, _, pU, pD, rfl, hG, goodPerms_pushedList pP _ _ hP, hU, hD⟩
    · rw [show tableEntry .PUT pG pP pU pD = ⟨.PUT, "update", pU⟩ from rfl, pushRequired_mk]
      exact ⟨pG, pP, _, pD, rfl, hG, hP, goodPerms_pushedList pU _ _ hU, hD⟩
    · rw [show tableEntry .DELETE pG pP pU pD = ⟨.DELETE, "delete", pD⟩ from rfl, pushRequired_mk]
      exact ⟨pG, pP, pU, _, rfl, hG, hP, hU, goodPerms_pushedList pD _ _ hD⟩

theorem tableInv_reachable {t : List PermissionEntry}
    (h : ReachableTable t) : TableInv t := by
  induction h with
  | init => exact tableInv_init
  | step u method path _ ih => exact tableInv_step _ u method path ih

theorem pushed_decide_core (ps : List String) (hps : goodPerms ps)
    (a b : String) (uP : List String) :
    (a ++ "_" ++ b) ∈ (if ps.contains (a ++ "_" ++ b) then ps else ps ++ [a ++ "_" ++ b]) ∧
    (decideGranted (if ps.contains (a ++ "_" ++ b) then ps else ps ++ [a ++ "_" ++ b]) uP
        = .next () ↔
      ∃ pm ∈ (if ps.contains (a ++ "_" ++ b) then ps else ps ++ [a ++ "_" ++ b]), pm ∈ uP) ∧
    (decideGranted (if ps.contains (a ++ "_" ++ b) then ps else ps ++ [a ++ "_" ++ b]) uP
        ≠ .next () →
      decideGranted (if ps.contains (a ++ "_" ++ b) then ps else ps ++ [a ++ "_" ++ b]) uP
        = .respond 403 "Access denied. No permission.") := by
  have hgood := goodPerms_pushedList ps a b hps
  refine ⟨(mem_pushedList_iff ps _ _).mpr (Or.inl rfl),
    decideGranted_next_iff _ uP hgood.2, ?_⟩
  intro hne
  rcases decideGranted_cases
      (if ps.contains (a ++ "_" ++ b) then ps else ps ++ [a ++ "_" ++ b]) uP with hc | hc
  · exact absurd hc hne
  · exact hc

/-! ## Claim theorems -/

/-- C1: over any reachable state of the permission requirement table, for
a request with one of the four table methods M and any path P, the
Permission Resolver allows the request iff some permission string
registered in the table entry for M — after the required string
`{first path segment of P}_{scope of M}` has been inserted — is a member
of the identity's effective permission set; otherwise it denies with the
403 response "Access denied. No permission.". -/
theorem getPermissions_allows_iff_registered (t : List PermissionEntry)
    (hreach : ReachableTable t) (u : PopUser) (m : Method) (path : String) :
    ∃ e, ((getPermissions t u (methodToString m) path).1).find?
            (fun pm => pm.method == m) = some e ∧
      (firstPathSegment path ++ "_" ++ scopeOf m) ∈ e.permissions ∧
      ((getPermissions t u (methodToString m) path).2 = .next () ↔
        ∃ pm ∈ e.permissions, pm ∈ userPermissions u) ∧
      ((getPermissions t u (methodToString m) path).2 ≠ .next () →
        (getPermissions t u (methodToString m) path).2 =
          .respond 403 "Access denied. No permission.") := by
  obtain ⟨pG, pP, pU, pD, rfl, hG, hP, hU, hD⟩ := tableInv_reachable hreach
  cases m
  · rw [getPermissions_table_eq,
      show tableEntry .GET pG pP pU pD = ⟨.GET, "read", pG⟩ from rfl, pushRequired_mk]
    obtain ⟨h1, h2, h3⟩ :=
      pushed_decide_core pG hG (firstPathSegment path) "read" (userPermissions u)
    exact ⟨⟨.GET, "read", _⟩, rfl, h1, h2, h3⟩
  · rw [getPermissions_table_eq,
      show tableEntry .POST pG pP pU pD = ⟨.POST, "write", pP⟩ from rfl, pushRequired_mk]
    obtain ⟨h1, h2, h3⟩ :=
      pushed_decide_core pP hP (firstPathSegment path) "write" (userPermissions u)
    exact ⟨⟨.POST, "write", _⟩, rfl, h1, h2, h3⟩
  · rw [getPermissions_table_eq,
      show tableEntry .PUT pG pP pU pD = ⟨.PUT, "update", pU⟩ from rfl, pushRequired_mk]
    obtain ⟨h1, h2, h3⟩ :=
      pushed_decide_core pU hU (firstPathSegment path) "update" (userPermissions u)
    exact ⟨⟨.PUT, "update", _⟩, rfl, h1, h2, h3⟩
  · rw [getPermissions_table_eq,
      show tableEntry .DELETE pG pP pU pD = ⟨.DELETE, "delete", pD⟩ from rfl, pushRequired_mk]
    obtain ⟨h1, h2, h3⟩ :=
      pushed_decide_core pD hD (firstPathSegment path) "delete" (userPermissions u)
    exact ⟨⟨.DELETE, "delete", _⟩, rfl, h1, h2, h3⟩

/-- Witness for C1: the seeded table, a user with direct permission
`users_read`, method GET and path `/users/1`. -/
theorem getPermissions_allows_iff_registered_witness :
    ∃ e, ((getPermissions initPermissions
            ⟨"u1", "n", "un", "e", "pw", ["users_read"], []⟩
            (methodToString .GET) "/users/1").1).find?
            (fun pm => pm.method == .GET) = some e ∧
      (firstPathSegment "/users/1" ++ "_" ++ scopeOf .GET) ∈ e.permissions ∧
      ((getPermissions initPermissions
          ⟨"u1", "n", "un", "e", "pw", ["users_read"], []⟩
          (methodToString .GET) "/users/1").2 = .next () ↔
        ∃ pm ∈ e.permissions,
          pm ∈ userPermissions ⟨"u1", "n", "un", "e", "pw", ["users_read"], []⟩) ∧
      ((getPermissions initPermissions
          ⟨"u1", "n", "un", "e", "pw", ["users_read"], []⟩
          (methodToString .GET) "/users/1").2 ≠ .next () →
        (getPermissions initPermissions
          ⟨"u1", "n", "un", "e", "pw", ["users_read"], []⟩
          (methodToString .GET) "/users/1").2 =
          .respond 403 "Access denied. No permission.") :=
  getPermissions_allows_iff_registered initPermissions .init _ .GET "/users/1"

/-- C2: the effective permission set equals the direct permission set when
that set is non-empty — role permissions are then ignored entirely — and
otherwise its members are exactly the union of the permission sets of the
identity's resolved roles. -/
theorem effectivePermissions_spec (u : PopUser) :
    (u.permissions ≠ [] → userPermissions u = u.permissions) ∧
    (u.permissions = [] →
      ∀ s, s ∈ userPermissions u ↔ ∃ r ∈ u.roles, s ∈ r.permissions) := by
  constructor
  · intro h
    unfold userPermissions
    rw [if_pos (fun hlen => h (List.length_eq_zero.mp hlen))]
  · intro h s
    unfold userPermissions
    rw [h, if_neg (by simp)]
    exact mem_mergedRolesPermissions u.roles s

/-- Witness for C2: a user with a non-empty direct set keeps exactly that
set even though a role grants more; a user with an empty direct set gets
the role permissions. -/
theorem effectivePermissions_spec_witness :
    userPermissions
      ⟨"u1", "n", "un", "e", "pw", ["users_read"],
        [⟨"r1", "admin", ["admin_granted"]⟩]⟩ = ["users_read"] ∧
    ("admin_granted" ∈ userPermissions
        ⟨"u2", "n", "un", "e", "pw", [],
          [⟨"r1", "admin", ["admin_granted"]⟩]⟩ ↔
      ∃ r ∈ [(⟨"r1", "admin", ["admin_granted"]⟩ : Role)],
        "admin_granted" ∈ r.permissions) :=
  ⟨(effectivePermissions_spec _).1 (by simp),
   (effectivePermissions_spec _).2 rfl "admin_granted"⟩

/-- C10: in every reachable state, every entry of the permission
requirement table contains `"admin_granted"`, and consequently an
identity whose effective permission set contains `"admin_granted"` is
allowed for every table method and path. -/
theorem admin_granted_always_allowed (t : List PermissionEntry)
    (hreach : ReachableTable t) :
    (∀ e ∈ t, "admin_granted" ∈ e.permissions) ∧
    (∀ (u : PopUser) (m : Method) (path : String),
      "admin_granted" ∈ userPermissions u →
      (getPermissions t u (methodToString m) path).2 = .next ()) := by
  obtain ⟨pG, pP, pU, pD, rfl, hG, hP, hU, hD⟩ := tableInv_reachable hreach
  constructor
  · intro e he
    rcases List.mem_cons.mp he with rfl | he
    · exact hG.1
    rcases List.mem_cons.mp he with rfl | he
    · exact hP.1
    rcases List.mem_cons.mp he with rfl | he
    · exact hU.1
    rcases List.mem_cons.mp he with rfl | he
    · exact hD.1
    · exact absurd he (List.not_mem_nil e)
  · intro u m path hu
    cases m
    · rw [getPermissions_table_eq,
        show tableEntry .GET pG pP pU pD = ⟨.GET, "read", pG⟩ from rfl, pushRequired_mk]
      exact (decideGranted_next_iff _ _ (goodPerms_pushedList pG _ _ hG).2).mpr
        ⟨"admin_granted", (mem_pushedList_iff pG _ _).mpr (Or.inr hG.1), hu⟩
    · rw [getPermissions_table_eq,
        show tableEntry .POST pG pP pU pD = ⟨.POST, "write", pP⟩ from rfl, pushRequired_mk]
      exact (decideGranted_next_iff _ _ (goodPerms_pushedList pP _ _ hP).2).mpr
        ⟨"admin_granted", (mem_pushedList_iff pP _ _).mpr (Or.inr hP.1), hu⟩
    · rw [getPermissions_table_eq,
        show tableEntry .PUT pG pP pU pD = ⟨.PUT, "update", pU⟩ from rfl, pushRequired_mk]
      exact (decideGranted_next_iff _ _ (goodPerms_pushedList pU _ _ hU).2).mpr
        ⟨"admin_granted", (mem_pushedList_iff pU _ _).mpr (Or.inr hU.1), hu⟩
    · rw [getPermissions_table_eq,
        show tableEntry .DELETE pG pP pU pD = ⟨.DELETE, "delete", pD⟩ from rfl, pushRequired_mk]
      exact (decideGranted_next_iff _ _ (goodPerms_pushedList pD _ _ hD).2).mpr
        ⟨"admin_granted", (mem_pushedList_iff pD _ _).mpr (Or.inr hD.1), hu⟩

/-- Witness for C10: the seeded table, and an admin user holding
`admin_granted` directly, allowed for DELETE on `/posts/9`. -/
theorem admin_granted_always_allowed_witness :
    (∀ e ∈ initPermissions, "admin_granted" ∈ e.permissions) ∧
    (∀ (u : PopUser) (m : Method) (path : String),
      "admin_granted" ∈ userPermissions u →
      (getPermissions initPermissions u (methodToString m) path).2 = .next ()) :=
  admin_granted_always_allowed initPermissions .init

theorem mem_populateRoles (roleDb : List Role) (rids : List String) (r : Role)
    (h : r ∈ populateRoles roleDb rids) : r ∈ roleDb := by
  unfold populateRoles at h
  rcases List.mem_filterMap.mp h with ⟨rid, _, hfind⟩
  exact List.mem_of_find?_eq_some hfind

/-- C4: a request whose bearer token string is absent or empty fails
authentication with the `jwt must be provided` error as a 401 response;
no identity is attached and the downstream handler is never invoked. -/
theorem verifyToken_missing_or_empty (roleDb : List Role)
    (userDb : List StoredUser) (secret : String) (now : Nat)
    (tok : Option Jwt) (h : tok = none ∨ tok = some .empty) :
    verifyToken roleDb userDb secret now tok =
      .respond 401 "jwt must be provided" ∧
    ∀ u, verifyToken roleDb userDb secret now tok ≠ .next u := by
  rcases h with rfl | rfl
  · exact ⟨rfl, fun u hc => MwResult.noConfusion (rfl.trans hc)⟩
  · exact ⟨rfl, fun u hc => MwResult.noConfusion (rfl.trans hc)⟩

/-- Witness for C4: no Authorization header at all. -/
theorem verifyToken_missing_or_empty_witness :
    verifyToken [] [] "shhh" 0 none = .respond 401 "jwt must be provided" ∧
    ∀ u, verifyToken [] [] "shhh" 0 none ≠ .next u :=
  verifyToken_missing_or_empty [] [] "shhh" 0 none (Or.inl rfl)

/-- C5: for a token signed with the process secret and checked strictly
before its expiry: if the subject identity no longer exists the Identity
Resolver terminates with the 400 response; if it exists, the resolver
attaches the identity loaded with populated role records, each drawn from
the role store with its permission set. -/
theorem verifyToken_identity_resolution (roleDb : List Role)
    (userDb : List StoredUser) (secret : String) (now : Nat)
    (p : JwtPayload) (hexp : now < p.exp) :
    (findById userDb p.id = none →
      verifyToken roleDb userDb secret now (some (.signed p secret)) =
        .respond 400 "") ∧
    (∀ su, findById userDb p.id = some su →
      verifyToken roleDb userDb secret now (some (.signed p secret)) =
        .next (populateUser roleDb su) ∧
      ∀ r ∈ (populateUser roleDb su).roles, r ∈ roleDb) := by
  have hv : jwtVerify (some (.signed p secret)) secret now = .ok p := by
    show (if secret ≠ secret then VerifyResult.err "invalid signature"
          else if p.exp ≤ now then VerifyResult.err "jwt expired"
          else VerifyResult.ok p) = VerifyResult.ok p
    rw [if_neg (by simp), if_neg (Nat.not_le.mpr hexp)]
  constructor
  · intro hnone
    have hf : findUserById roleDb userDb p.id = none := by
      unfold findUserById
      rw [hnone]
      rfl
    unfold verifyToken
    rw [hv]
    show (match findUserById roleDb userDb p.id with
          | none => MwResult.respond 400 ""
          | some u => MwResult.next u) = MwResult.respond 400 ""
    rw [hf]
  · intro su hsu
    have hf : findUserById roleDb userDb p.id = some (populateUser roleDb su) := by
      unfold findUserById
      rw [hsu]
      rfl
    constructor
    · unfold verifyToken
      rw [hv]
      show (match findUserById roleDb userDb p.id with
            | none => MwResult.respond 400 ""
            | some u => MwResult.next u) = MwResult.next (populateUser roleDb su)
      rw [hf]
    · intro r hr
      exact mem_populateRoles roleDb su.roles r hr

/-- Witness for C5: a one-user store, an admin role store, and a payload
expiring at 3600 checked at time 10. -/
theorem verifyToken_identity_resolution_witness :
    (10 : Nat) < (⟨"u1", "un", "e@x", 0, 3600⟩ : JwtPayload).exp ∧
    ((findById [⟨"u1", "n", "un", "e@x", "pw", [], ["r1"]⟩]
        (⟨"u1", "un", "e@x", 0, 3600⟩ : JwtPayload).id = none →
      verifyToken [⟨"r1", "admin", ["admin_granted"]⟩]
          [⟨"u1", "n", "un", "e@x", "pw", [], ["r1"]⟩] "shhh" 10
          (some (.signed ⟨"u1", "un", "e@x", 0, 3600⟩ "shhh")) =
        .respond 400 "") ∧
    (∀ su, findById [⟨"u1", "n", "un", "e@x", "pw", [], ["r1"]⟩]
        (⟨"u1", "un", "e@x", 0, 3600⟩ : JwtPayload).id = some su →
      verifyToken [⟨"r1", "admin", ["admin_granted"]⟩]
          [⟨"u1", "n", "un", "e@x", "pw", [], ["r1"]⟩] "shhh" 10
          (some (.signed ⟨"u1", "un", "e@x", 0, 3600⟩ "shhh")) =
        .next (populateUser [⟨"r1", "admin", ["admin_granted"]⟩] su) ∧
      ∀ r ∈ (populateUser [⟨"r1", "admin", ["admin_granted"]⟩] su).roles,
        r ∈ [(⟨"r1", "admin", ["admin_granted"]⟩ : Role)])) :=
  ⟨by decide,
   verifyToken_identity_resolution [⟨"r1", "admin", ["admin_granted"]⟩]
     [⟨"u1", "n", "un", "e@x", "pw", [], ["r1"]⟩] "shhh" 10
     ⟨"u1", "un", "e@x", 0, 3600⟩ (by decide)⟩

/-- C9: verifying a token issued for an identity under the same signing
secret, at any instant strictly before issued-at plus the fixed 1-hour
TTL, succeeds with claims carrying the identity's id, username and
email. -/
theorem issue_verify_roundtrip (u : PopUser) (secret : String)
    (iat now : Nat) (h : now < iat + 3600) :
    jwtVerify (some (issueToken u secret iat)) secret now =
      .ok ⟨u._id, u.username, u.email, iat, iat + 3600⟩ := by
  show (if secret ≠ secret then VerifyResult.err "invalid signature"
        else if iat + 3600 ≤ now then VerifyResult.err "jwt expired"
        else VerifyResult.ok ⟨u._id, u.username, u.email, iat, iat + 3600⟩) =
      VerifyResult.ok ⟨u._id, u.username, u.email, iat, iat + 3600⟩
  rw [if_neg (by simp), if_neg (Nat.not_le.mpr h)]

/-- Witness for C9: a concrete identity, issued at 0, checked at 3599. -/
theorem issue_verify_roundtrip_witness :
    (3599 : Nat) < 0 + 3600 ∧
    jwtVerify (some (issueToken ⟨"u1", "n", "un", "e@x", "pw", [], []⟩ "shhh" 0))
        "shhh" 3599 =
      .ok ⟨"u1", "un", "e@x", 0, 0 + 3600⟩ :=
  ⟨by decide,
   issue_verify_roundtrip ⟨"u1", "n", "un", "e@x", "pw", [], []⟩ "shhh" 0 3599
     (by decide)⟩

/-- C6: a creation request whose roles field is absent, not an array, or
an empty array makes the Role Assignment Resolver perform its lookup with
the single-element default list `["user"]`. -/
theorem checkRoles_default_user (roleDb : List Role) (f : RolesField)
    (h : f = .missing ∨ f = .nonArray ∨ f = .list []) :
    roleNamesToFind f = ["user"] ∧
    checkRoles roleDb f =
      (if (findRolesByName roleDb ["user"]).length = 0
       then .respond 404 "No roles found"
       else .next ((findRolesByName roleDb ["user"]).map (·._id))) := by
  have h1 : roleNamesToFind f = ["user"] := by
    rcases h with rfl | rfl | rfl <;> rfl
  refine ⟨h1, ?_⟩
  unfold checkRoles
  rw [h1]

/-- Witness for C6: a body with no roles field, against a store holding
the seeded `user` role. -/
theorem checkRoles_default_user_witness :
    roleNamesToFind .missing = ["user"] ∧
    checkRoles [⟨"r2", "user", []⟩] .missing =
      (if (findRolesByName [⟨"r2", "user", []⟩] ["user"]).length = 0
       then .respond 404 "No roles found"
       else .next ((findRolesByName [⟨"r2", "user", []⟩] ["user"]).map (·._id))) :=
  checkRoles_default_user [⟨"r2", "user", []⟩] .missing (Or.inl rfl)

/-- C7: the Role Assignment Resolver answers 404 `No roles found` iff no
stored role's name is among the requested (or defaulted) names; when at
least one role matches, it replaces the body's roles field with exactly
the identifiers of the matching roles. -/
theorem checkRoles_matching (roleDb : List Role) (f : RolesField) :
    (checkRoles roleDb f = .respond 404 "No roles found" ↔
      ∀ r ∈ roleDb, r.name ∉ roleNamesToFind f) ∧
    (findRolesByName roleDb (roleNamesToFind f) ≠ [] →
      checkRoles roleDb f =
        .next ((findRolesByName roleDb (roleNamesToFind f)).map (·._id))) := by
  have hfil : ∀ r, r ∈ findRolesByName roleDb (roleNamesToFind f) ↔
      r ∈ roleDb ∧ r.name ∈ roleNamesToFind f := by
    intro r
    unfold findRolesByName
    rw [List.mem_filter]
    exact and_congr_right (fun _ => List.elem_iff)
  have hempty : findRolesByName roleDb (roleNamesToFind f) = [] ↔
      ∀ r ∈ roleDb, r.name ∉ roleNamesToFind f := by
    rw [List.eq_nil_iff_forall_not_mem]
    constructor
    · intro h r hr hn
      exact h r ((hfil r).mpr ⟨hr, hn⟩)
    · intro h r hr
      obtain ⟨h1, h2⟩ := (hfil r).mp hr
      exact h r h1 h2
  have hck : checkRoles roleDb f =
      (if (findRolesByName roleDb (roleNamesToFind f)).length = 0
       then .respond 404 "No roles found"
       else .next ((findRolesByName roleDb (roleNamesToFind f)).map (·._id))) := rfl
  constructor
  · rw [hck]
    by_cases hz : (findRolesByName roleDb (roleNamesToFind f)).length = 0
    · rw [if_pos hz]
      exact ⟨fun _ => hempty.mp (List.length_eq_zero.mp hz), fun _ => rfl⟩
    · rw [if_neg hz]
      constructor
      · intro hc
        exact absurd hc (fun hc => MwResult.noConfusion hc)
      · intro hall
        exact absurd (hempty.mpr hall)
          (fun hnil => hz (by rw [hnil]; rfl))
  · intro hne
    rw [hck, if_neg (fun hz => hne (List.length_eq_zero.mp hz))]

/-- Witness for C7: requesting `["admin", "ghost"]` where only `admin`
exists resolves to the admin id and is not a 404. -/
theorem checkRoles_matching_witness :
    (checkRoles [⟨"r1", "admin", ["admin_granted"]⟩, ⟨"r2", "user", []⟩]
        (.list ["admin", "ghost"]) = .respond 404 "No roles found" ↔
      ∀ r ∈ [(⟨"r1", "admin", ["admin_granted"]⟩ : Role), ⟨"r2", "user", []⟩],
        r.name ∉ roleNamesToFind (.list ["admin", "ghost"])) ∧
    (findRolesByName [⟨"r1", "admin", ["admin_granted"]⟩, ⟨"r2", "user", []⟩]
        (roleNamesToFind (.list ["admin", "ghost"])) ≠ [] →
      checkRoles [⟨"r1", "admin", ["admin_granted"]⟩, ⟨"r2", "user", []⟩]
          (.list ["admin", "ghost"]) =
        .next ((findRolesByName [⟨"r1", "admin", ["admin_granted"]⟩, ⟨"r2", "user", []⟩]
          (roleNamesToFind (.list ["admin", "ghost"]))).map (·._id))) :=
  checkRoles_matching [⟨"r1", "admin", ["admin_granted"]⟩, ⟨"r2", "user", []⟩]
    (.list ["admin", "ghost"])

/-- C8: the externally serialized representation produced by `toJSON`
omits the password digest field unconditionally. -/
theorem toJSON_omits_password (u : PopUser) :
    (∀ kv ∈ toJSON u, kv.1 ≠ "password") ∧
    "password" ∉ (toJSON u).map Prod.fst := by
  constructor
  · intro kv hkv
    exact of_decide_eq_true (List.mem_filter.mp hkv).2
  · intro hc
    rcases List.mem_map.mp hc with ⟨kv, hkv, hfst⟩
    exact of_decide_eq_true (List.mem_filter.mp hkv).2 hfst

/-- Witness for C8 at a concrete user whose stored digest is `"pw"`. -/
theorem toJSON_omits_password_witness :
    (∀ kv ∈ toJSON ⟨"u1", "n", "un", "e@x", "pw", ["users_read"],
        [⟨"r1", "admin", ["admin_granted"]⟩]⟩, kv.1 ≠ "password") ∧
    "password" ∉ (toJSON ⟨"u1", "n", "un", "e@x", "pw", ["users_read"],
        [⟨"r1", "admin", ["admin_granted"]⟩]⟩).map Prod.fst :=
  toJSON_omits_password _

/-- C3 (code evidence): `UserRepository.create` persists the digest
`hash pw`, but `UserRepository.update` — `findByIdAndUpdate`, which runs
no document save middleware — persists a changed password verbatim, so
the plaintext is stored for every digest function `hash`. -/
theorem update_stores_plaintext_password (hash : String → String)
    (u : StoredUser) (pw : String) :
    (createUserRecord hash { u with password := pw }).password = hash pw ∧
    (updateUserRecord { password := some pw } u).password = pw :=
  ⟨rfl, rfl⟩
